import Mathlib

/-!
Shallow embedding of `brents` from `src/rateslib/cextensions.pyx`.

The routine is Brent's root-finding method: it takes an objective `f`, two
bracket endpoints `x0 x1`, an iteration budget `max_iter` and a `tolerance`,
checks the bracketing precondition `f(x0)·f(x1) ≤ 0`, normalises the bracket so
that `x1` carries the smaller-magnitude function value, and then iterates:
inverse quadratic interpolation or secant candidate, acceptance test with
bisection fallback, history shift, bracket update, endpoint swap.

Real arithmetic is embedded as exact rational arithmetic (`ℚ`).  The three
ways a call can leave the normal path are made explicit in an error type:
the `ValueError` raised on a bad bracket, Python's `ZeroDivisionError` when a
denominator is exactly zero, and Python's `UnboundLocalError` when the local
`d` would be read before its first assignment.  Function evaluations are also
logged by a parallel instrumentation (`brentsEvals`) so that claims about the
number of calls to `f` can be stated.
-/

namespace Rateslib

/-- The ways a call to `brents` can terminate abnormally: the explicit
`ValueError` for a non-bracketing pair (line 13), Python's `ZeroDivisionError`
from a zero denominator in the candidate formulas (lines 32–38), and Python's
`UnboundLocalError` if the local `d` were read before assignment (lines 42, 44). -/
inductive Err where
  | invalidBracket
  | zeroDivision
  | unboundLocal
deriving DecidableEq, Repr

/-- The loop-local state of `brents`: bracket endpoints `x0`, `x1`, the
previous best `x2`, the twice-previous value `d` (unbound before its first
assignment, hence an `Option`), the bisection flag `mflag`, and the counter
`steps` (`steps_taken` in the source). -/
structure BState where
  x0 : ℚ
  x1 : ℚ
  x2 : ℚ
  d : Option ℚ
  mflag : Bool
  steps : ℕ
deriving DecidableEq, Repr

/-- Lines 28–38: recompute `fx0`, `fx1`, `fx2` and form the candidate `new`:
inverse quadratic interpolation when `fx0 ≠ fx2` and `fx1 ≠ fx2`, otherwise
the secant step.  A zero denominator raises `ZeroDivisionError`. -/
def candidate (f : ℚ → ℚ) (s : BState) : Except Err ℚ :=
  let fx0 := f s.x0
  let fx1 := f s.x1
  let fx2 := f s.x2
  if fx0 ≠ fx2 ∧ fx1 ≠ fx2 then
    if (fx0 - fx1) * (fx0 - fx2) = 0 ∨ (fx1 - fx0) * (fx1 - fx2) = 0 ∨
        (fx2 - fx0) * (fx2 - fx1) = 0 then
      .error .zeroDivision
    else
      .ok ((s.x0 * fx1 * fx2) / ((fx0 - fx1) * (fx0 - fx2)) +
           (s.x1 * fx0 * fx2) / ((fx1 - fx0) * (fx1 - fx2)) +
           (s.x2 * fx1 * fx0) / ((fx2 - fx0) * (fx2 - fx1)))
  else
    if fx1 - fx0 = 0 then .error .zeroDivision
    else .ok (s.x1 - (fx1 * (s.x1 - s.x0)) / (fx1 - fx0))

/-- Lines 40–44: the rejection test on the candidate `new`, with Python's
left-to-right short-circuit evaluation.  The disjuncts that mention `d` are
guarded by `mflag == False`, so `d` is only read when `mflag` is `false`;
reading an unbound `d` is `UnboundLocalError`. -/
def rejectTest (tol : ℚ) (s : BState) (new : ℚ) : Except Err Bool :=
  if new < (3 * s.x0 + s.x1) / 4 ∨ s.x1 < new then .ok true
  else
    match s.mflag, s.d with
    | true, _ => .ok (|s.x1 - s.x2| / 2 ≤ |new - s.x1| ∨ |s.x1 - s.x2| < tol)
    | false, none => .error .unboundLocal
    | false, some dv => .ok (|s.x2 - dv| / 2 ≤ |new - s.x1| ∨ |s.x2 - dv| < tol)

/-- Lines 51–60: evaluate `fnew = f(new)`, shift the history
(`d, x2 = x2, x1`), replace one bracket endpoint by `new` according to the
sign of `fx0 * fnew`, and finally swap `x0` with `x1` when `|fx0| < |fx1|` —
where `fx0 = f(x0)` and `fx1 = f(x1)` are the values at the start-of-iteration
endpoints (lines 28–29), which the source does not refresh after the update. -/
def update (f : ℚ → ℚ) (s : BState) (new : ℚ) (mflag : Bool) : BState :=
  let fx0 := f s.x0
  let fx1 := f s.x1
  let fnew := f new
  let p := if fx0 * fnew < 0 then (s.x0, new) else (new, s.x1)
  let q := if |fx0| < |fx1| then (p.2, p.1) else p
  ⟨q.1, q.2, s.x1, some s.x2, mflag, s.steps + 1⟩

/-- One full iteration of the `while` body (lines 28–62): candidate,
acceptance test (rejection replaces `new` by the midpoint and sets `mflag`,
acceptance clears `mflag`), then the history/bracket/swap update. -/
def step (f : ℚ → ℚ) (tol : ℚ) (s : BState) : Except Err BState :=
  match candidate f s with
  | .error e => .error e
  | .ok n =>
    match rejectTest tol s n with
    | .error e => .error e
    | .ok r => .ok (update f s (if r then (s.x0 + s.x1) / 2 else n) r)

/-- The `while steps_taken < max_iter and abs(x1 - x0) > tolerance` loop
(line 26), run on explicit fuel.  With `fuel = maxIter` the fuel can never be
exhausted while the first guard still holds, so this is the loop's exact
semantics. -/
def loop (f : ℚ → ℚ) (tol : ℚ) (maxIter : ℕ) : ℕ → BState → Except Err BState
  | 0, s => .ok s
  | fuel + 1, s =>
    if s.steps < maxIter ∧ tol < |s.x1 - s.x0| then
      match step f tol s with
      | .error e => .error e
      | .ok s' => loop f tol maxIter fuel s'
    else .ok s

/-- Lines 17–24: the initial normalisation swap (putting the
smaller-`|f|` endpoint into `x1`) followed by `x2, fx2 = x0, fx0`,
`mflag = True`, `steps_taken = 0`; `d` is still unbound. -/
def initState (f : ℚ → ℚ) (x0 x1 : ℚ) : BState :=
  if |f x0| < |f x1| then ⟨x1, x0, x1, none, true, 0⟩ else ⟨x0, x1, x0, none, true, 0⟩

/-- Lines 2–64 of the source, returning the full final loop state: the
precondition check `fx0 * fx1 > 0` (raising `ValueError`), the initial
normalisation, then the loop. -/
def brentsState (f : ℚ → ℚ) (x0 x1 : ℚ) (maxIter : ℕ) (tol : ℚ) :
    Except Err BState :=
  if 0 < f x0 * f x1 then .error .invalidBracket
  else loop f tol maxIter maxIter (initState f x0 x1)

/-- The source's `brents`: returns `(x1, steps_taken)` of the final state. -/
def brents (f : ℚ → ℚ) (x0 x1 : ℚ) (maxIter : ℕ) (tol : ℚ) :
    Except Err (ℚ × ℕ) :=
  (brentsState f x0 x1 maxIter tol).map fun s => (s.x1, s.steps)

/-- The points at which `f` is evaluated during one iteration, in source
order: `f(x0)`, `f(x1)`, `f(x2)` at the loop head (lines 28–30), then
`f(new)` (line 51) unless an error aborts the iteration first. -/
def stepEvals (f : ℚ → ℚ) (tol : ℚ) (s : BState) : List ℚ :=
  [s.x0, s.x1, s.x2] ++
    match candidate f s with
    | .error _ => []
    | .ok n =>
      match rejectTest tol s n with
      | .error _ => []
      | .ok r => [if r then (s.x0 + s.x1) / 2 else n]

/-- The evaluation points of `f` over a whole run of the loop. -/
def loopEvals (f : ℚ → ℚ) (tol : ℚ) (maxIter : ℕ) : ℕ → BState → List ℚ
  | 0, _ => []
  | fuel + 1, s =>
    if s.steps < maxIter ∧ tol < |s.x1 - s.x0| then
      stepEvals f tol s ++
        match step f tol s with
        | .error _ => []
        | .ok s' => loopEvals f tol maxIter fuel s'
    else []

/-- All points at which `brents` evaluates `f`, in evaluation order: the two
precondition evaluations `f(x0)`, `f(x1)` (lines 9–10), then — if the bracket
check passes — the loop's evaluations. -/
def brentsEvals (f : ℚ → ℚ) (x0 x1 : ℚ) (maxIter : ℕ) (tol : ℚ) : List ℚ :=
  [x0, x1] ++
    if 0 < f x0 * f x1 then []
    else loopEvals f tol maxIter maxIter (initState f x0 x1)

/-- The accepted value actually used for the update in one iteration: the
candidate when the acceptance test passes, the bisection midpoint when it
rejects. -/
def chosen (f : ℚ → ℚ) (tol : ℚ) (s : BState) : Except Err ℚ :=
  match candidate f s with
  | .error e => .error e
  | .ok n =>
    match rejectTest tol s n with
    | .error e => .error e
    | .ok r => .ok (if r then (s.x0 + s.x1) / 2 else n)

/-- The everywhere-zero objective, used to reach the unguarded zero
denominator. -/
def fz : ℚ → ℚ := fun _ => 0

/-- A concrete piecewise objective used to exercise specific trajectories of
the solver on exact inputs. -/
def fc : ℚ → ℚ := fun x =>
  if x = 0 then 1
  else if x = 4 then -2
  else if x = 2 then 0
  else if x = 1 then 5
  else if x = 1 / 2 then 7
  else 0

/-! Helper lemmas -/

lemma candidate_error (f : ℚ → ℚ) (s : BState) (e : Err)
    (h : candidate f s = .error e) : e = .zeroDivision := by
  simp only [candidate] at h
  split_ifs at h <;> simp_all

lemma rejectTest_error (tol : ℚ) (s : BState) (n : ℚ) (e : Err)
    (h : rejectTest tol s n = .error e) : e = .unboundLocal := by
  simp only [rejectTest] at h
  split_ifs at h
  all_goals cases hm : s.mflag <;> cases hd : s.d <;> simp_all

lemma step_error (f : ℚ → ℚ) (tol : ℚ) (s : BState) (e : Err)
    (h : step f tol s = .error e) : e = .zeroDivision ∨ e = .unboundLocal := by
  cases hc : candidate f s with
  | error e' =>
    simp only [step, hc] at h
    exact Or.inl ((Except.error.injEq _ _).mp h ▸ candidate_error f s e' hc)
  | ok n =>
    cases hr : rejectTest tol s n with
    | error e' =>
      simp only [step, hc, hr] at h
      exact Or.inr ((Except.error.injEq _ _).mp h ▸ rejectTest_error tol s n e' hr)
    | ok r =>
      simp only [step, hc, hr] at h
      exact absurd h (by simp)

lemma loop_error (f : ℚ → ℚ) (tol : ℚ) (maxIter : ℕ) (e : Err) :
    ∀ fuel s, loop f tol maxIter fuel s = .error e →
      e = .zeroDivision ∨ e = .unboundLocal := by
  intro fuel
  induction fuel with
  | zero => intro s h; exact absurd h (by simp [loop])
  | succ n ih =>
    intro s h
    unfold loop at h
    split at h
    · cases hs : step f tol s with
      | error e' =>
        simp only [hs] at h
        exact (Except.error.injEq _ _).mp h ▸ step_error f tol s e' hs
      | ok s' => simp only [hs] at h; exact ih s' h
    · exact absurd h (by simp)

lemma step_ok_shape (f : ℚ → ℚ) (tol : ℚ) (s s' : BState)
    (h : step f tol s = .ok s') :
    ∃ n r, candidate f s = .ok n ∧ rejectTest tol s n = .ok r ∧
      s' = update f s (if r then (s.x0 + s.x1) / 2 else n) r := by
  cases hc : candidate f s with
  | error e => simp [step, hc] at h
  | ok n =>
    cases hr : rejectTest tol s n with
    | error e => simp [step, hc, hr] at h
    | ok r =>
      simp only [step, hc, hr] at h
      exact ⟨n, r, rfl, hr, ((Except.ok.injEq _ _).mp h).symm⟩

lemma update_endpoints (f : ℚ → ℚ) (s : BState) (nv : ℚ) (m : Bool) :
    ((update f s nv m).x0, (update f s nv m).x1) =
      if |f s.x0| < |f s.x1| then
        (if f s.x0 * f nv < 0 then (nv, s.x0) else (s.x1, nv))
      else
        (if f s.x0 * f nv < 0 then (s.x0, nv) else (nv, s.x1)) := by
  by_cases h1 : f s.x0 * f nv < 0 <;> by_cases h2 : |f s.x0| < |f s.x1| <;>
    simp [update, h1, h2]

lemma step_fields (f : ℚ → ℚ) (tol : ℚ) (s s' : BState)
    (h : step f tol s = .ok s') :
    s'.d = some s.x2 ∧ s'.x2 = s.x1 ∧ s'.steps = s.steps + 1 := by
  cases hc : candidate f s with
  | error e => simp only [step, hc] at h; exact absurd h (by simp)
  | ok n =>
    cases hr : rejectTest tol s n with
    | error e => simp only [step, hc, hr] at h; exact absurd h (by simp)
    | ok r =>
      simp only [step, hc, hr] at h
      have := (Except.ok.injEq _ _).mp h
      subst this
      exact ⟨rfl, rfl, rfl⟩

/-! Claim theorems -/

/-- C3: In every loop iteration, the candidate `new` is computed by
inverse quadratic interpolation (`new = L0 + L1 + L2` with
`L0 = x0·f(x1)·f(x2)/((f(x0)-f(x1))·(f(x0)-f(x2)))` and its two cyclic
counterparts) exactly when `f(x0) ≠ f(x2)` and `f(x1) ≠ f(x2)`, and otherwise
by the secant formula `new = x1 - f(x1)·(x1-x0)/(f(x1)-f(x0))`. -/
theorem candidate_selection (f : ℚ → ℚ) (s : BState) (nv : ℚ)
    (h : candidate f s = .ok nv) :
    (f s.x0 ≠ f s.x2 ∧ f s.x1 ≠ f s.x2 →
      nv = s.x0 * f s.x1 * f s.x2 / ((f s.x0 - f s.x1) * (f s.x0 - f s.x2)) +
        s.x1 * f s.x0 * f s.x2 / ((f s.x1 - f s.x0) * (f s.x1 - f s.x2)) +
        s.x2 * f s.x1 * f s.x0 / ((f s.x2 - f s.x0) * (f s.x2 - f s.x1))) ∧
    (¬(f s.x0 ≠ f s.x2 ∧ f s.x1 ≠ f s.x2) →
      nv = s.x1 - f s.x1 * (s.x1 - s.x0) / (f s.x1 - f s.x0)) := by
  simp only [candidate] at h
  split_ifs at h with h1 h2 h3
  · exact ⟨fun _ => ((Except.ok.injEq _ _).mp h).symm, fun hcon => absurd h1 hcon⟩
  · exact ⟨fun hcon => absurd hcon h1, fun _ => ((Except.ok.injEq _ _).mp h).symm⟩

/-- Witness for C3: a concrete secant-branch iteration, with the hypothesis
discharged by evaluation. -/
theorem candidate_selection_witness :
    (0:ℚ) = 1 - 1 * (1 - -1) / (1 - -1) := by
  have h := (candidate_selection (fun x => x) ⟨-1, 1, -1, none, true, 0⟩ 0
    (by norm_num [candidate])).2 (by norm_num)
  norm_num at h ⊢

/-- C4: If `f(x0)·f(x1) > 0` (strictly), `brents` fails with
`InvalidBracket` before any iteration, having evaluated `f` exactly twice, at
`x0` and `x1`; if `f(x0)·f(x1) ≤ 0`, no `InvalidBracket` error is raised and
execution proceeds into the loop. -/
theorem bracket_precondition (f : ℚ → ℚ) (x0 x1 : ℚ) (maxIter : ℕ) (tol : ℚ) :
    (0 < f x0 * f x1 →
      brents f x0 x1 maxIter tol = .error .invalidBracket ∧
      brentsEvals f x0 x1 maxIter tol = [x0, x1]) ∧
    (f x0 * f x1 ≤ 0 →
      brents f x0 x1 maxIter tol ≠ .error .invalidBracket ∧
      brentsState f x0 x1 maxIter tol =
        loop f tol maxIter maxIter (initState f x0 x1)) := by
  constructor
  · intro h
    exact ⟨by simp [brents, brentsState, if_pos h, Except.map],
           by simp [brentsEvals, if_pos h]⟩
  · intro h
    have h' : ¬ 0 < f x0 * f x1 := not_lt.mpr h
    constructor
    · intro hcon
      unfold brents brentsState at hcon
      rw [if_neg h'] at hcon
      cases hl : loop f tol maxIter maxIter (initState f x0 x1) with
      | error e =>
        rw [hl] at hcon
        simp only [Except.map] at hcon
        rcases loop_error f tol maxIter e maxIter _ hl with h1 | h1 <;> simp_all
      | ok s => rw [hl] at hcon; simp [Except.map] at hcon
    · unfold brentsState; rw [if_neg h']

/-- Witness for C4: a same-sign bracket fails with `InvalidBracket` after
exactly the two initial evaluations. -/
theorem bracket_precondition_witness :
    brents (fun x => x) 1 2 50 (1/100) = .error .invalidBracket ∧
    brentsEvals (fun x => x) 1 2 50 (1/100) = [1, 2] :=
  (bracket_precondition (fun x => x) 1 2 50 (1/100)).1 (by norm_num)

/-- C8: A division with an exactly-zero denominator is reachable inside
the loop and is not guarded: the everywhere-zero objective passes the bracket
check (product `0 ≤ 0`), the first iteration takes the secant branch with
`f(x1) - f(x0) = 0`, and the call aborts with the `ZeroDivisionError` of the
unguarded division. -/
theorem zeroDenominator_reachable :
    fz 0 * fz 1 ≤ 0 ∧
    fz (initState fz 0 1).x1 - fz (initState fz 0 1).x0 = 0 ∧
    candidate fz (initState fz 0 1) = .error .zeroDivision ∧
    brents fz 0 1 1 (1/2) = .error .zeroDivision := by
  refine ⟨by norm_num [fz], by norm_num [fz], ?_, ?_⟩
  · norm_num [fz, initState, candidate]
  · norm_num [fz, brents, brentsState, initState, loop, step, candidate, Except.map]

/-- C2: In every loop iteration, the candidate is rejected (replaced by
the bisection midpoint `(x0+x1)/2` with `mflag` set `true`) if and only if at
least one of the five listed conditions holds, and on acceptance `mflag` is
set `false` and the candidate is kept. -/
theorem acceptance_test (f : ℚ → ℚ) (tol : ℚ) (s : BState) (nv dv : ℚ)
    (hc : candidate f s = .ok nv) (hd : s.mflag = true ∨ s.d = some dv) :
    ∃ r, rejectTest tol s nv = .ok r ∧
      (r = true ↔
        (nv < (3 * s.x0 + s.x1) / 4 ∨ s.x1 < nv) ∨
        (s.mflag = true ∧ |s.x1 - s.x2| / 2 ≤ |nv - s.x1|) ∨
        (s.mflag = false ∧ |s.x2 - dv| / 2 ≤ |nv - s.x1|) ∨
        (s.mflag = true ∧ |s.x1 - s.x2| < tol) ∨
        (s.mflag = false ∧ |s.x2 - dv| < tol)) ∧
      step f tol s = .ok (update f s (if r then (s.x0 + s.x1) / 2 else nv) r) := by
  by_cases h1 : nv < (3 * s.x0 + s.x1) / 4 ∨ s.x1 < nv
  · refine ⟨true, by simp [rejectTest, if_pos h1], by simp [h1], ?_⟩
    simp [step, hc, rejectTest, if_pos h1]
  · cases hm : s.mflag with
    | true =>
      refine ⟨decide (|s.x1 - s.x2| / 2 ≤ |nv - s.x1| ∨ |s.x1 - s.x2| < tol),
        ?_, ?_, ?_⟩
      · simp [rejectTest, if_neg h1, hm]
      · simp [h1, hm, decide_eq_true_eq, or_assoc]
      · simp [step, hc, rejectTest, if_neg h1, hm]
    | false =>
      have hds : s.d = some dv := by
        rcases hd with hd | hd
        · rw [hm] at hd; exact absurd hd (by simp)
        · exact hd
      refine ⟨decide (|s.x2 - dv| / 2 ≤ |nv - s.x1| ∨ |s.x2 - dv| < tol),
        ?_, ?_, ?_⟩
      · simp [rejectTest, if_neg h1, hm, hds]
      · simp [h1, hm, decide_eq_true_eq, or_assoc]
      · simp [step, hc, rejectTest, if_neg h1, hm, hds]

/-- Witness for C2: a concrete accepted/rejected instance — a candidate below
the admissible range is rejected. -/
theorem acceptance_test_witness :
    rejectTest (1/100) ⟨0, 1, 2, some 3, false, 1⟩ 0 = .ok true := by
  obtain ⟨r, hr, hiff, -⟩ :=
    acceptance_test (fun x => x) (1/100) ⟨0, 1, 2, some 3, false, 1⟩ 0 3
      (by norm_num [candidate]) (Or.inr rfl)
  have hrt : r = true := hiff.mpr (Or.inl (Or.inl (by norm_num)))
  rw [hrt] at hr
  exact hr

/-- C1 counterexample: The swap at the end of an iteration compares the
stale loop-head values, so the claimed invariant `|f(x0)| ≥ |f(x1)|` at the
end of every iteration fails: after the single completed iteration of this
run, `x0 = 2`, `x1 = 0`, and `|f(2)| = 0 < 1 = |f(0)|`. -/
theorem stale_swap_counterexample :
    brentsState fc 0 4 1 (1/100) = .ok ⟨2, 0, 0, some 4, true, 1⟩ ∧
    |fc 2| < |fc 0| := by
  constructor
  · norm_num [brentsState, initState, loop, step, candidate, rejectTest,
      update, fc]
  · norm_num [fc]

/-- C1 amended: At the end of every iteration, `x0` and `x1` are the
updated bracket pair, swapped exactly when `|f(x0)| < |f(x1)|` held at the
*start-of-iteration* endpoints: line 59 compares the stale loop-head values
`fx0`, `fx1` after one endpoint has already been replaced by `new`, so `x1`
need not be the endpoint with the smaller-magnitude function value when the
iteration completes. -/
theorem swap_characterisation (f : ℚ → ℚ) (tol : ℚ) (s : BState) (nv : ℚ)
    (h : chosen f tol s = .ok nv) :
    ∃ s', step f tol s = .ok s' ∧
      (s'.x0, s'.x1) =
        if |f s.x0| < |f s.x1| then
          (if f s.x0 * f nv < 0 then (nv, s.x0) else (s.x1, nv))
        else
          (if f s.x0 * f nv < 0 then (s.x0, nv) else (nv, s.x1)) := by
  cases hc : candidate f s with
  | error e => simp [chosen, hc] at h
  | ok n =>
    cases hr : rejectTest tol s n with
    | error e => simp [chosen, hc, hr] at h
    | ok r =>
      simp only [chosen, hc, hr] at h
      have hnv : (if r then (s.x0 + s.x1) / 2 else n) = nv :=
        (Except.ok.injEq _ _).mp h
      refine ⟨update f s nv r, ?_, ?_⟩
      · simp [step, hc, hr, hnv]
      · by_cases h1 : f s.x0 * f nv < 0 <;> by_cases h2 : |f s.x0| < |f s.x1| <;>
          simp [update, h1, h2]

/-- Witness for C1-amended: the first iteration of a concrete run, with the
hypothesis discharged by evaluation. -/
theorem swap_characterisation_witness :
    ∃ s', step fc (1/100) ⟨4, 0, 4, none, true, 0⟩ = .ok s' ∧
      (s'.x0, s'.x1) =
        if |fc 4| < |fc 0| then
          (if fc 4 * fc 2 < 0 then ((2:ℚ), (4:ℚ)) else (0, 2))
        else
          (if fc 4 * fc 2 < 0 then (4, 2) else (2, 0)) :=
  swap_characterisation fc (1/100) ⟨4, 0, 4, none, true, 0⟩ 2
    (by norm_num [chosen, candidate, rejectTest, fc])

/-- C9 counterexample: A run that passes the precondition check and never
hits a zero denominator (it completes all three iterations and returns
normally), yet at the start of its third iteration the endpoint product is
strictly positive: after two iterations the state is `x0 = 0`, `x1 = 1` with
`f(0)·f(1) = 5 > 0`, and the loop guard still holds there. -/
theorem bracket_sign_counterexample :
    ¬ 0 < fc 0 * fc 4 ∧
    initState fc 0 4 = ⟨4, 0, 4, none, true, 0⟩ ∧
    step fc (1/100) ⟨4, 0, 4, none, true, 0⟩ = .ok ⟨2, 0, 0, some 4, true, 1⟩ ∧
    step fc (1/100) ⟨2, 0, 0, some 4, true, 1⟩ = .ok ⟨0, 1, 0, some 0, true, 2⟩ ∧
    ((2:ℕ) < 3 ∧ (1:ℚ)/100 < |(1:ℚ) - 0|) ∧
    0 < fc 0 * fc 1 ∧
    brentsState fc 0 4 3 (1/100) = .ok ⟨1, 1/2, 1, some 0, true, 3⟩ := by
  refine ⟨by norm_num [fc], by norm_num [initState, fc], ?_, ?_, by norm_num,
    by norm_num [fc], ?_⟩
  · norm_num [step, candidate, rejectTest, update, fc]
  · norm_num [step, candidate, rejectTest, update, fc]
  · norm_num [brentsState, initState, loop, step, candidate, rejectTest,
      update, fc]

/-- C9 amended: The bracket update and endpoint swap preserve the
sign-change product `f(x0)·f(x1) ≤ 0` across one iteration provided
`f(x0) ≠ 0` at the start of the iteration; when `f(x0) = 0` the product can
become strictly positive, as the counterexample shows. -/
theorem bracket_sign_preserved (f : ℚ → ℚ) (tol : ℚ) (s s' : BState)
    (h0 : f s.x0 * f s.x1 ≤ 0) (hne : f s.x0 ≠ 0)
    (hs : step f tol s = .ok s') : f s'.x0 * f s'.x1 ≤ 0 := by
  obtain ⟨n, r, hc, hr, rfl⟩ := step_ok_shape f tol s s' hs
  set nv := if r then (s.x0 + s.x1) / 2 else n with hnv
  have hep := update_endpoints f s nv r
  by_cases h1 : f s.x0 * f nv < 0 <;> by_cases h2 : |f s.x0| < |f s.x1| <;>
    simp only [h1, h2, ite_true, ite_false, if_true, if_false] at hep <;>
    injection hep with e0 e1 <;> rw [e0, e1]
  · rw [mul_comm]; exact le_of_lt h1
  · exact le_of_lt h1
  · have hac : 0 ≤ f s.x0 * f nv := not_lt.mp h1
    rcases hne.lt_or_lt with ha | ha
    · have hb : 0 ≤ f s.x1 := by nlinarith
      have hcn : f nv ≤ 0 := by nlinarith
      exact mul_nonpos_of_nonneg_of_nonpos hb hcn
    · have hb : f s.x1 ≤ 0 := by nlinarith
      have hcn : 0 ≤ f nv := by nlinarith
      exact mul_nonpos_of_nonpos_of_nonneg hb hcn
  · have hac : 0 ≤ f s.x0 * f nv := not_lt.mp h1
    rcases hne.lt_or_lt with ha | ha
    · have hb : 0 ≤ f s.x1 := by nlinarith
      have hcn : f nv ≤ 0 := by nlinarith
      exact mul_nonpos_of_nonpos_of_nonneg hcn hb
    · have hb : f s.x1 ≤ 0 := by nlinarith
      have hcn : 0 ≤ f nv := by nlinarith
      exact mul_nonpos_of_nonneg_of_nonpos hcn hb

/-- Witness for C9-amended: one concrete iteration preserving the sign
product, all hypotheses discharged by evaluation. -/
theorem bracket_sign_preserved_witness : (0:ℚ) * 1 ≤ 0 :=
  bracket_sign_preserved (fun x => x) (1/2) ⟨-1, 1, -1, none, true, 0⟩
    ⟨0, 1, 1, some (-1), true, 1⟩ (by norm_num) (by norm_num)
    (by norm_num [step, candidate, rejectTest, update])

/-- C10: The bracket width `|x1 - x0|` never increases across a loop
iteration: an accepted candidate lies between `(3·x0+x1)/4` and `x1` (inside
the current bracket), a rejected candidate is the midpoint, and replacing one
endpoint with an interior point (followed by an optional swap) cannot enlarge
the width. -/
theorem width_nonincreasing (f : ℚ → ℚ) (tol : ℚ) (s s' : BState)
    (h : step f tol s = .ok s') : |s'.x1 - s'.x0| ≤ |s.x1 - s.x0| := by
  obtain ⟨n, r, hc, hr, rfl⟩ := step_ok_shape f tol s s' h
  have habs1 := le_abs_self (s.x1 - s.x0)
  have habs2 := neg_abs_le (s.x1 - s.x0)
  have main : ∀ nv : ℚ, |s.x1 - nv| ≤ |s.x1 - s.x0| →
      |nv - s.x0| ≤ |s.x1 - s.x0| → ∀ m : Bool,
      |(update f s nv m).x1 - (update f s nv m).x0| ≤ |s.x1 - s.x0| := by
    intro nv k1 k2 m
    have k3 : |nv - s.x1| ≤ |s.x1 - s.x0| := by rwa [abs_sub_comm]
    have k4 : |s.x0 - nv| ≤ |s.x1 - s.x0| := by rwa [abs_sub_comm]
    have hep := update_endpoints f s nv m
    by_cases h1 : f s.x0 * f nv < 0 <;> by_cases h2 : |f s.x0| < |f s.x1| <;>
      simp only [h1, h2, ite_true, ite_false, if_true, if_false] at hep <;>
      injection hep with e0 e1 <;> rw [e0, e1]
    · exact k4
    · exact k2
    · exact k3
    · exact k1
  cases r with
  | true =>
    have hm := main ((s.x0 + s.x1) / 2)
      (by rw [abs_le]; constructor <;> linarith)
      (by rw [abs_le]; constructor <;> linarith) true
    simpa using hm
  | false =>
    have hcond : ¬(n < (3 * s.x0 + s.x1) / 4 ∨ s.x1 < n) := by
      intro hcon
      simp [rejectTest, if_pos hcon] at hr
    push_neg at hcond
    obtain ⟨hlo, hhi⟩ := hcond
    have hx : s.x0 ≤ s.x1 := by linarith
    have hm := main n
      (by rw [abs_le]; constructor <;> linarith)
      (by rw [abs_le]; constructor <;> linarith) false
    simpa using hm

/-- Witness for C10: a concrete iteration whose bracket width shrinks from 2
to 1. -/
theorem width_nonincreasing_witness : |(1:ℚ) - 0| ≤ |1 - -1| :=
  width_nonincreasing (fun x => x) (1/2) ⟨-1, 1, -1, none, true, 0⟩
    ⟨0, 1, 1, some (-1), true, 1⟩
    (by norm_num [step, candidate, rejectTest, update])

lemma loop_final (f : ℚ → ℚ) (tol : ℚ) (maxIter : ℕ) :
    ∀ fuel s s', s.steps + fuel = maxIter →
      loop f tol maxIter fuel s = .ok s' →
      s'.steps ≤ maxIter ∧ (s'.steps = maxIter ∨ |s'.x1 - s'.x0| ≤ tol) := by
  intro fuel
  induction fuel with
  | zero =>
    intro s s' hfuel h
    simp only [loop] at h
    have he := (Except.ok.injEq _ _).mp h
    subst he
    exact ⟨by omega, Or.inl (by omega)⟩
  | succ n ih =>
    intro s s' hfuel h
    unfold loop at h
    split at h
    · rename_i hg
      cases hs : step f tol s with
      | error e => simp [hs] at h
      | ok t =>
        simp only [hs] at h
        have ht := (step_fields f tol s t hs).2.2
        exact ih t s' (by omega) h
    · rename_i hg
      have he := (Except.ok.injEq _ _).mp h
      subst he
      rcases not_and_or.mp hg with hg1 | hg2
      · omega
      · exact ⟨by omega, Or.inr (not_lt.mp hg2)⟩

lemma initState_steps (f : ℚ → ℚ) (x0 x1 : ℚ) :
    (initState f x0 x1).steps = 0 := by
  unfold initState; split <;> rfl

lemma initState_mflag (f : ℚ → ℚ) (x0 x1 : ℚ) :
    (initState f x0 x1).mflag = true := by
  unfold initState; split <;> rfl

lemma initState_absdiff (f : ℚ → ℚ) (x0 x1 : ℚ) :
    |(initState f x0 x1).x1 - (initState f x0 x1).x0| = |x0 - x1| := by
  unfold initState
  split
  · rfl
  · rw [abs_sub_comm]

/-- C5: For every call that returns normally, `brents` returns the pair
`(x1, iterations_used)` from the final loop state; at return,
`iterations_used ≤ max_iter`, and either `iterations_used = max_iter` or
`|x1 - x0| ≤ tolerance` (the loop exits only on budget exhaustion or on the
bracket width falling to or below tolerance).  Termination itself is
structural: the loop consumes fuel `max_iter`, which the guard
`steps_taken < max_iter` can never outlast. -/
theorem return_contract (f : ℚ → ℚ) (x0 x1 : ℚ) (maxIter : ℕ) (tol : ℚ)
    (s : BState) (h : brentsState f x0 x1 maxIter tol = .ok s) :
    brents f x0 x1 maxIter tol = .ok (s.x1, s.steps) ∧
    s.steps ≤ maxIter ∧ (s.steps = maxIter ∨ |s.x1 - s.x0| ≤ tol) := by
  refine ⟨by simp [brents, h, Except.map], ?_⟩
  unfold brentsState at h
  split at h
  · simp at h
  · exact loop_final f tol maxIter maxIter (initState f x0 x1) s
      (by simp [initState_steps]) h

/-- Witness for C5: a concrete run that stops after 2 of 3 allowed
iterations with the bracket width at tolerance. -/
theorem return_contract_witness :
    brents (fun x => x) (-1) 1 3 (1/2) = .ok (1/2, 2) ∧
    2 ≤ 3 ∧ ((2:ℕ) = 3 ∨ |(1:ℚ)/2 - 1| ≤ 1/2) := by
  have h := return_contract (fun x => x) (-1) 1 3 (1/2)
    ⟨1, 1/2, 1, some 1, true, 2⟩
    (by norm_num [brentsState, initState, loop, step, candidate, rejectTest,
      update, abs_le, lt_abs, le_abs, abs_lt])
  exact h

/-- C6: If `max_iter = 0`, or if `|x0 - x1| ≤ tolerance` already holds at
entry (after the precondition check), the loop body never executes and
`brents` returns `(x1, 0)` where `x1` is the initial best endpoint after the
normalisation swap, regardless of the residual `f(x1)`. -/
theorem zero_iterations (f : ℚ → ℚ) (x0 x1 : ℚ) (maxIter : ℕ) (tol : ℚ)
    (h1 : ¬ 0 < f x0 * f x1) (h2 : maxIter = 0 ∨ |x0 - x1| ≤ tol) :
    brents f x0 x1 maxIter tol =
      .ok (if |f x0| < |f x1| then x0 else x1, 0) := by
  have hloop : loop f tol maxIter maxIter (initState f x0 x1) =
      .ok (initState f x0 x1) := by
    rcases h2 with h2 | h2
    · subst h2; rfl
    · cases maxIter with
      | zero => rfl
      | succ k =>
        unfold loop
        rw [if_neg]
        intro ⟨hga, hgb⟩
        rw [initState_absdiff] at hgb
        exact absurd h2 (not_le.mpr hgb)
  unfold brents brentsState
  rw [if_neg h1, hloop]
  unfold initState
  split <;> simp [Except.map, initState_steps]

/-- Witness for C6: a `max_iter = 0` call returns the initial best endpoint
with zero iterations. -/
theorem zero_iterations_witness :
    brents (fun x => x) (-1) 1 0 (1/2) = .ok (1, 0) := by
  have h := zero_iterations (fun x => x) (-1) 1 0 (1/2) (by norm_num)
    (Or.inl rfl)
  norm_num at h
  exact h

lemma rejectTest_no_ub (tol : ℚ) (s : BState) (n : ℚ)
    (h : s.mflag = true ∨ s.d.isSome) :
    rejectTest tol s n ≠ .error .unboundLocal := by
  unfold rejectTest
  split
  · simp
  · rcases h with h | h
    · simp [h]
    · obtain ⟨dv, hd⟩ := Option.isSome_iff_exists.mp h
      cases hm : s.mflag <;> simp [hm, hd]

lemma step_no_ub (f : ℚ → ℚ) (tol : ℚ) (s : BState)
    (h : s.mflag = true ∨ s.d.isSome) :
    step f tol s ≠ .error .unboundLocal := by
  cases hc : candidate f s with
  | error e =>
    have he := candidate_error f s e hc
    subst he
    simp [step, hc]
  | ok n =>
    cases hr : rejectTest tol s n with
    | error e =>
      cases rejectTest_error tol s n e hr
      exact absurd hr (rejectTest_no_ub tol s n h)
    | ok r => simp [step, hc, hr]

lemma loop_no_ub (f : ℚ → ℚ) (tol : ℚ) (maxIter : ℕ) :
    ∀ fuel s, (s.mflag = true ∨ s.d.isSome) →
      loop f tol maxIter fuel s ≠ .error .unboundLocal := by
  intro fuel
  induction fuel with
  | zero => intro s _; simp [loop]
  | succ n ih =>
    intro s hinv
    unfold loop
    split
    · cases hs : step f tol s with
      | error e =>
        intro hcon
        have he := (Except.error.injEq _ _).mp hcon
        subst he
        exact step_no_ub f tol s hinv hs
      | ok t =>
        have ht : t.d.isSome := by
          rw [(step_fields f tol s t hs).1]; rfl
        exact ih t (Or.inr ht)
    · simp

/-- C7: The history variable `d` is never read before it has been
assigned: the acceptance-test disjuncts that read `d` are evaluated only when
`mflag` is `false` (short-circuit), `mflag` is `true` on the first iteration,
and `d` is assigned unconditionally in every iteration, so no run of `brents`
can raise the `UnboundLocalError` that an unbound read of `d` would be. -/
theorem d_never_read_unbound (f : ℚ → ℚ) (x0 x1 : ℚ) (maxIter : ℕ)
    (tol : ℚ) : brents f x0 x1 maxIter tol ≠ .error .unboundLocal := by
  unfold brents brentsState
  split
  · simp [Except.map]
  · cases hl : loop f tol maxIter maxIter (initState f x0 x1) with
    | error e =>
      cases e with
      | invalidBracket => simp [Except.map]
      | zeroDivision => simp [Except.map]
      | unboundLocal =>
        exact absurd hl
          (loop_no_ub f tol maxIter maxIter (initState f x0 x1)
            (Or.inl (initState_mflag f x0 x1)))
    | ok s => simp [Except.map]

/-- Witness for C7 at a concrete call (the theorem's statement is a negated
equality, instantiated here). -/
theorem d_never_read_unbound_witness :
    brents fz 0 1 1 (1/2) ≠ .error .unboundLocal :=
  d_never_read_unbound fz 0 1 1 (1/2)

end Rateslib
